import Mathlib

/-!
Verification of the package-inventory snapshot pipeline (`packagetracker.py`).

The Python source is shallowly embedded: every backend subprocess is an
oracle `Exec : List String → Except PTError String` standing for
`subprocess.run`'s captured stdout (or the `RuntimeError` that
`_run_command` raises when the command exits non-zero), and the
filesystem is an association list from path to file data.  String
manipulation is modelled on `List Char`, matching Python's code-point
string semantics.
-/

namespace PackageTracker

/-- Errors of the pipeline.  `commandFailed` models the `RuntimeError`
raised by `_run_command`; `parseError` the `ValueError` raised by
`dict(...)` on a malformed row; `indexError` the `IndexError` of
`line.split(':', 1)[1]` on a line without a colon; `emptyInventory` the
`RuntimeError("No packages found - possible detection error")`;
`writeError` the `RuntimeError("Failed to save packages: ...")`;
`unsupportedManager` and `missingTool` the two validation errors at the
top of `save_packages_to_file`; `notImplemented` the
`NotImplementedError` of `get_installed_packages`. -/
inductive PTError where
  | commandFailed (msg : String)
  | parseError (msg : String)
  | indexError (msg : String)
  | emptyInventory
  | writeError (msg : String)
  | unsupportedManager
  | missingTool (cmd : String)
  | notImplemented (pm : String)

deriving DecidableEq

deriving instance DecidableEq for Except

/-- Oracle for `_run_command`: maps an argv to the captured stdout, or to
the `RuntimeError` wrapping a non-zero exit. -/
def Exec : Type := List String → Except PTError String

/-- Python `str.splitlines` worker over an explicit character list; the
accumulator holds the current line reversed. -/
def pySplitlinesGo (acc : List Char) : List Char → List (List Char)
  | [] => [acc.reverse]
  | c :: cs =>
      if c = '\n' then
        acc.reverse :: (match cs with
          | [] => []
          | _ :: _ => pySplitlinesGo [] cs)
      else
        pySplitlinesGo (c :: acc) cs

/-- Python `str.splitlines` (newline-only, as produced by the query
tools): no trailing empty line for a trailing newline, and `[]` for the
empty string. -/
def pySplitlinesL (cs : List Char) : List (List Char) :=
  match cs with
  | [] => []
  | _ :: _ => pySplitlinesGo [] cs

/-- Python `str.splitlines` on a `String`. -/
def pySplitlines (s : String) : List String :=
  (pySplitlinesL s.data).map String.mk

/-- Python `str.split(sep)` with a one-character separator: splits at
every occurrence, keeping empty fields (`"".split(sep) == ['']`). -/
def pySplitSepGo (sep : Char) (acc : List Char) : List Char → List (List Char)
  | [] => [acc.reverse]
  | c :: cs =>
      if c = sep then acc.reverse :: pySplitSepGo sep [] cs
      else pySplitSepGo sep (c :: acc) cs

/-- Python `str.split(sep)` over a character list. -/
def pySplitSepL (sep : Char) (cs : List Char) : List (List Char) :=
  pySplitSepGo sep [] cs

/-- Python `str.split()` (no argument): splits on runs of whitespace and
never yields empty fields (`"".split() == []`). -/
def pySplitWsGo (acc : List Char) : List Char → List (List Char)
  | [] => if acc.isEmpty then [] else [acc.reverse]
  | c :: cs =>
      if c.isWhitespace then
        if acc.isEmpty then pySplitWsGo [] cs
        else acc.reverse :: pySplitWsGo [] cs
      else pySplitWsGo (c :: acc) cs

/-- Python `str.split()` over a character list. -/
def pySplitWsL (cs : List Char) : List (List Char) :=
  pySplitWsGo [] cs

/-- Python `dict` assignment `m[k] = v`: replace the value in place if
the key is present (keeping its position), otherwise append. -/
def dictUpd {β : Type} : List (String × β) → String → β → List (String × β)
  | [], k, v => [(k, v)]
  | (k', v') :: rest, k, v =>
      if k' = k then (k', v) :: rest else (k', v') :: dictUpd rest k v

/-- Python `dict(iterable)` over a list of token rows, as used by the
listers: each row must have exactly two fields, otherwise `dict` raises
`ValueError`; duplicate keys silently overwrite (last row wins). -/
def dictOfPairsGo (m : List (String × String)) :
    List (List String) → Except PTError (List (String × String))
  | [] => .ok m
  | row :: rest =>
      match row with
      | [k, v] => dictOfPairsGo (dictUpd m k v) rest
      | _ => .error (.parseError "dictionary update sequence element is not of length 2")

/-- Python `dict(row for row in rows)` starting from the empty dict. -/
def dictOfPairs (rows : List (List String)) : Except PTError (List (String × String)) :=
  dictOfPairsGo [] rows

/-- `_get_apt_packages` given the stdout of `dpkg-query`:
`dict(line.split('\t') for line in output.splitlines())`. -/
def getAptPackagesFrom (output : String) : Except PTError (List (String × String)) :=
  dictOfPairs ((pySplitlinesL output.data).map (fun l => (pySplitSepL '\t' l).map String.mk))

/-- `_get_yum_packages` given the stdout of `rpm -qa`: identical tab
split. -/
def getYumPackagesFrom (output : String) : Except PTError (List (String × String)) :=
  dictOfPairs ((pySplitlinesL output.data).map (fun l => (pySplitSepL '\t' l).map String.mk))

/-- `_get_pacman_packages` given the stdout of `pacman -Q`:
`dict(line.split() for line in output.splitlines())`. -/
def getPacmanPackagesFrom (output : String) : Except PTError (List (String × String)) :=
  dictOfPairs ((pySplitlinesL output.data).map (fun l => (pySplitWsL l).map String.mk))

/-- Python `str.lower` restricted to ASCII, which covers every
`distro.id()` value the detector compares against. -/
def pyLowerChar (c : Char) : Char :=
  if 'A' ≤ c ∧ c ≤ 'Z' then Char.ofNat (c.toNat + 32) else c

/-- `detect_package_manager` (the second, shadowing definition in the
source, which is the one Python executes), as a function of
`distro.id()`. -/
def detectPackageManager (testMode : Bool) (distroId : String) : String :=
  if testMode then "apt"
  else
    let d : List Char := distroId.data.map pyLowerChar
    if d = "ubuntu".data ∨ d = "debian".data then "apt"
    else if ("centos".data <:+: d) ∨ ("redhat".data <:+: d) ∨
            ("fedora".data <:+: d) then "yum"
    else if "arch".data <:+: d then "pacman"
    else if "suse".data <:+: d then "zypper"
    else "unknown"

/-- The token split each lister applies to a line: tab for apt and yum,
whitespace for pacman. -/
def sepTokens (pm : String) (l : List Char) : List (List Char) :=
  if pm = "pacman" then pySplitWsL l else pySplitSepL '\t' l

/-- The per-backend parse of the listing subprocess output, shared shape
of `_get_apt_packages` / `_get_yum_packages` / `_get_pacman_packages`. -/
def parseListing (pm : String) (output : String) : Except PTError (List (String × String)) :=
  if pm = "apt" then getAptPackagesFrom output
  else if pm = "yum" then getYumPackagesFrom output
  else if pm = "pacman" then getPacmanPackagesFrom output
  else .error (.notImplemented pm)

/-- `get_installed_packages`: re-detects the manager and dispatches to
the matching lister, raising `NotImplementedError` otherwise. -/
def getInstalledPackages (distroId : String) (exec : Exec) :
    Except PTError (List (String × String)) :=
  let pm := detectPackageManager false distroId
  if pm = "apt" then
    match exec ["dpkg-query", "-W", "-f=$\x7bPackage\x7d\t$\x7bVersion\x7d\n"] with
    | .error e => .error e
    | .ok output => getAptPackagesFrom output
  else if pm = "yum" then
    match exec ["rpm", "-qa", "--queryformat=%\x7bNAME\x7d\t%\x7bVERSION\x7d\n"] with
    | .error e => .error e
    | .ok output => getYumPackagesFrom output
  else if pm = "pacman" then
    match exec ["pacman", "-Q"] with
    | .error e => .error e
    | .ok output => getPacmanPackagesFrom output
  else .error (.notImplemented pm)

/-- The message of the `ValueError` that `dict(...)` raises on a row of
the wrong arity. -/
def dictLenMsg : String := "dictionary update sequence element is not of length 2"

/-- The optional enrichment fields a detail fetcher can produce: the
`details` dict of `_get_*_package_details` holds at most a
`description` and a `dependencies` key. -/
structure PackageDetails where
  description : Option String := none
  dependencies : Option (List String) := none

deriving DecidableEq

/-- A value of the per-package dict built by `_prepare_package_data`:
`{"version": ver}` optionally enriched in place by `update(details)`. -/
structure PackageRecord where
  version : String
  description : Option String := none
  dependencies : Option (List String) := none

deriving DecidableEq

/-- Python whitespace strip (`str.strip`) over a character list. -/
def pyStrip (l : List Char) : List Char :=
  ((l.dropWhile Char.isWhitespace).reverse.dropWhile Char.isWhitespace).reverse

/-- Python `line.split(':', 1)[1]`: the text after the first colon, or
`none` when there is no colon (where Python raises `IndexError`). -/
def afterFirstColon (l : List Char) : Option (List Char) :=
  match l.dropWhile (fun c => c ≠ ':') with
  | [] => none
  | _ :: rest => some rest

/-- Python `str.split(', ')` as used on the apt `Depends:` field:
non-overlapping left-to-right splits on the two-character separator. -/
def splitCommaSpaceGo (acc : List Char) : List Char → List (List Char)
  | [] => [acc.reverse]
  | ',' :: ' ' :: cs => acc.reverse :: splitCommaSpaceGo [] cs
  | c :: cs => splitCommaSpaceGo (c :: acc) cs

/-- Python `str.split(', ')` over a character list. -/
def splitCommaSpaceL (cs : List Char) : List (List Char) :=
  splitCommaSpaceGo [] cs

/-- One step of the apt detail parse loop: a `Description:` line sets the
description, a `Depends:` line sets the dependency list, anything else is
ignored; the unreachable colon-free case is Python's `IndexError`. -/
def aptDetailLine (d : PackageDetails) (l : List Char) : Except PTError PackageDetails :=
  if "Description:".data.isPrefixOf l then
    match afterFirstColon l with
    | some rest => .ok { d with description := some (String.mk (pyStrip rest)) }
    | none => .error (.indexError "list index out of range")
  else if "Depends:".data.isPrefixOf l then
    match afterFirstColon l with
    | some rest =>
        .ok { d with dependencies := some ((splitCommaSpaceL (pyStrip rest)).map String.mk) }
    | none => .error (.indexError "list index out of range")
  else .ok d

/-- One step of the yum detail parse loop (`Summary:` / `Requires:`,
whitespace-split dependencies). -/
def yumDetailLine (d : PackageDetails) (l : List Char) : Except PTError PackageDetails :=
  if "Summary:".data.isPrefixOf l then
    match afterFirstColon l with
    | some rest => .ok { d with description := some (String.mk (pyStrip rest)) }
    | none => .error (.indexError "list index out of range")
  else if "Requires:".data.isPrefixOf l then
    match afterFirstColon l with
    | some rest => .ok { d with dependencies := some ((pySplitWsL (pyStrip rest)).map String.mk) }
    | none => .error (.indexError "list index out of range")
  else .ok d

/-- One step of the pacman detail parse loop (`Description` /
`Depends On` without a trailing colon in the tested prefix, so the
`IndexError` branch is genuinely reachable on colon-free lines). -/
def pacmanDetailLine (d : PackageDetails) (l : List Char) : Except PTError PackageDetails :=
  if "Description".data.isPrefixOf l then
    match afterFirstColon l with
    | some rest => .ok { d with description := some (String.mk (pyStrip rest)) }
    | none => .error (.indexError "list index out of range")
  else if "Depends On".data.isPrefixOf l then
    match afterFirstColon l with
    | some rest => .ok { d with dependencies := some ((pySplitWsL (pyStrip rest)).map String.mk) }
    | none => .error (.indexError "list index out of range")
  else .ok d

/-- `_get_apt_package_details`: on a failed subprocess the
`RuntimeError` is caught and an empty details dict returned; otherwise
the labeled fields are grepped from the output lines. -/
def getAptPackageDetails (exec : Exec) (package : String) : Except PTError PackageDetails :=
  match exec ["apt-cache", "show", package] with
  | .error _ => .ok {}
  | .ok output => (pySplitlinesL output.data).foldlM aptDetailLine {}

/-- `_get_yum_package_details`. -/
def getYumPackageDetails (exec : Exec) (package : String) : Except PTError PackageDetails :=
  match exec ["rpm", "-qi", package] with
  | .error _ => .ok {}
  | .ok output => (pySplitlinesL output.data).foldlM yumDetailLine {}

/-- `_get_pacman_package_details`. -/
def getPacmanPackageDetails (exec : Exec) (package : String) : Except PTError PackageDetails :=
  match exec ["pacman", "-Qi", package] with
  | .error _ => .ok {}
  | .ok output => (pySplitlinesL output.data).foldlM pacmanDetailLine {}

/-- `_get_package_details`: dispatch on the manager string, with an
empty dict for any other manager. -/
def getPackageDetails (exec : Exec) (pkgManager package : String) : Except PTError PackageDetails :=
  if pkgManager = "apt" then getAptPackageDetails exec package
  else if pkgManager = "yum" then getYumPackageDetails exec package
  else if pkgManager = "pacman" then getPacmanPackageDetails exec package
  else .ok {}

/-- Python `pkg_data.update(details)`: a key present in `details`
overwrites, an absent key leaves the record unchanged. -/
def applyDetails (r : PackageRecord) (d : PackageDetails) : PackageRecord :=
  { version := r.version
    description := match d.description with
      | some s => some s
      | none => r.description
    dependencies := match d.dependencies with
      | some ds => some ds
      | none => r.dependencies }

/-- Python `package_data[pkg] = pkg_data` on the result dict. -/
def recUpd : List (String × PackageRecord) → String → PackageRecord →
    List (String × PackageRecord)
  | [], k, v => [(k, v)]
  | (k', v') :: rest, k, v =>
      if k' = k then (k', v) :: rest else (k', v') :: recUpd rest k v

/-- `_prepare_package_data`: builds `{"version": ver}` per package and,
when `detailed`, enriches it in place with the fetched details.  The
progress messages written to stderr in non-test mode are a side channel
with no effect on the returned data and are not modelled. -/
def preparePackageData (exec : Exec) (packages : List (String × String))
    (pkgManager : String) (detailed testMode : Bool) :
    Except PTError (List (String × PackageRecord)) :=
  packages.foldlM
    (fun acc p =>
      if detailed then do
        let det ← getPackageDetails exec pkgManager p.1
        pure (recUpd acc p.1 (applyDetails { version := p.2 } det))
      else
        pure (recUpd acc p.1 { version := p.2 }))
    []

/-- A subprocess oracle on which every invocation fails. -/
def failingExec : Exec := fun _ => Except.error (PTError.commandFailed "boom")

mutual
inductive Json where
  | null
  | str (s : String)
  | num (n : Nat)
  | arr (elems : JsonArr)
  | obj (fields : JsonObj)
inductive JsonArr where
  | anil
  | acons (hd : Json) (tl : JsonArr)
inductive JsonObj where
  | onil
  | ocons (key : String) (val : Json) (tl : JsonObj)
end

/-- The host facts `_get_system_metadata` reads.  Only
`socket.gethostname()` can raise (`OSError`); `platform.*` and
`distro.*` report an unknown fact by returning the empty string, and
`os.cpu_count()` by returning `None`, so those reads are total. -/
structure FactOracles where
  hostname : Except PTError String
  system : String
  release : String
  osVersion : String
  machine : String
  distroId : String
  distroName : String
  distroVersion : String
  distroCodename : String
  pythonVersion : String
  pythonImplementation : String
  cpuCount : Option Nat
  processor : String

/-- The nested metadata dict literal of `_get_system_metadata`, given a
successfully read hostname. -/
def systemMetadataObj (host : String) (facts : FactOracles) : JsonObj :=
  .ocons "hostname" (.str host)
    (.ocons "os" (.obj
      (.ocons "system" (.str facts.system)
        (.ocons "release" (.str facts.release)
          (.ocons "version" (.str facts.osVersion)
            (.ocons "machine" (.str facts.machine)
              (.ocons "distro" (.obj
                (.ocons "id" (.str facts.distroId)
                  (.ocons "name" (.str facts.distroName)
                    (.ocons "version" (.str facts.distroVersion)
                      (.ocons "codename" (.str facts.distroCodename) .onil)))))
                .onil))))))
      (.ocons "python" (.obj
        (.ocons "version" (.str facts.pythonVersion)
          (.ocons "implementation" (.str facts.pythonImplementation) .onil)))
        (.ocons "cpu" (.obj
          (.ocons "count" (match facts.cpuCount with | some n => .num n | none => .null)
            (.ocons "architecture" (.str facts.processor) .onil)))
          .onil)))

/-- `_get_system_metadata` (with its unused `fields` filtering parameter
omitted — the pipeline always calls it with no arguments): every fact
read happens unguarded inside one dict literal, so an exception from any
read propagates out of the collector. -/
def getSystemMetadata (facts : FactOracles) : Except PTError JsonObj :=
  match facts.hostname with
  | .error e => .error e
  | .ok host => .ok (systemMetadataObj host facts)

/-- A fact-oracle assignment on which hostname resolution raises
`OSError` while every other fact reads normally. -/
def factsHostnameDown : FactOracles :=
  { hostname := .error (.commandFailed "socket.gaierror"), system := "Linux"
    release := "6.1.0", osVersion := "#1 SMP", machine := "x86_64"
    distroId := "ubuntu", distroName := "Ubuntu", distroVersion := "22.04"
    distroCodename := "jammy", pythonVersion := "3.10.12"
    pythonImplementation := "CPython", cpuCount := some 8, processor := "x86_64" }

/-- A fully healthy fact-oracle assignment. -/
def factsHealthy : FactOracles :=
  { hostname := .ok "host1", system := "Linux", release := "6.1.0"
    osVersion := "#1 SMP", machine := "x86_64", distroId := "ubuntu"
    distroName := "Ubuntu", distroVersion := "22.04", distroCodename := "jammy"
    pythonVersion := "3.10.12", pythonImplementation := "CPython"
    cpuCount := some 8, processor := "x86_64" }

/-- The decimal digit character for `d < 10`. -/
def digitChar (d : Nat) : Char :=
  match d with
  | 0 => '0' | 1 => '1' | 2 => '2' | 3 => '3' | 4 => '4'
  | 5 => '5' | 6 => '6' | 7 => '7' | 8 => '8' | _ => '9'

/-- The lowercase hexadecimal digit character for `d < 16`. -/
def hexDigitChar (d : Nat) : Char :=
  match d with
  | 0 => '0' | 1 => '1' | 2 => '2' | 3 => '3' | 4 => '4'
  | 5 => '5' | 6 => '6' | 7 => '7' | 8 => '8' | 9 => '9'
  | 10 => 'a' | 11 => 'b' | 12 => 'c' | 13 => 'd' | 14 => 'e' | _ => 'f'

/-- Decimal rendering worker; structural on `fuel`, which any
`fuel ≥ n` saturates. -/
def natToCharsGo : Nat → Nat → List Char
  | 0, n => [digitChar n]
  | fuel + 1, n =>
      if n < 10 then [digitChar n]
      else natToCharsGo fuel (n / 10) ++ [digitChar (n % 10)]

/-- Decimal rendering of a natural number, most significant digit
first. -/
def natToChars (n : Nat) : List Char := natToCharsGo n n

/-- JSON string escaping of one character, as `json.dump` performs it:
quote, backslash and the named control characters get two-character
escapes, other control characters a `\u00xx` escape.  (Python
additionally escapes non-ASCII characters as `\uXXXX` by default;
`json.loads` decodes those back, so emitting them directly leaves the
parse/serialize round trip unchanged.) -/
def escChar (c : Char) : List Char :=
  if c = '"' then ['\\', '"']
  else if c = '\\' then ['\\', '\\']
  else if c = '\n' then ['\\', 'n']
  else if c = '\t' then ['\\', 't']
  else if c = '\r' then ['\\', 'r']
  else if c = '\x08' then ['\\', 'b']
  else if c = '\x0c' then ['\\', 'f']
  else if c.toNat < 32 then
    ['\\', 'u', '0', '0', hexDigitChar (c.toNat / 16), hexDigitChar (c.toNat % 16)]
  else [c]

/-- JSON string escaping of a character list. -/
def escapeL : List Char → List Char
  | [] => []
  | c :: cs => escChar c ++ escapeL cs

mutual
/-- Serialization of a JSON value, modelling `json.dump` (the
whitespace that `indent=2` inserts between tokens is omitted; it is
skipped by any JSON parser and does not affect the parsed value). -/
def serJsonL : Json → List Char
  | .null => ['n', 'u', 'l', 'l']
  | .str s => '"' :: (escapeL s.data ++ ['"'])
  | .num n => natToChars n
  | .arr .anil => ['[', ']']
  | .arr (.acons h t) => '[' :: (serJsonL h ++ serArrTailL t)
  | .obj .onil => ['\x7b', '\x7d']
  | .obj (.ocons k v t) =>
      '\x7b' :: ('"' :: (escapeL k.data ++ ['"']) ++ (':' :: serJsonL v ++ serObjTailL t))
/-- Serialization of the second and later array elements, up to and
including the closing bracket. -/
def serArrTailL : JsonArr → List Char
  | .anil => [']']
  | .acons h t => ',' :: (serJsonL h ++ serArrTailL t)
/-- Serialization of the second and later object members, up to and
including the closing brace. -/
def serObjTailL : JsonObj → List Char
  | .onil => ['\x7d']
  | .ocons k v t => ',' :: ('"' :: (escapeL k.data ++ ['"']) ++ (':' :: serJsonL v ++ serObjTailL t))
end

/-- `json.dump` of a value, as a string. -/
def serJson (j : Json) : String := String.mk (serJsonL j)

/-- Python string comparison on code points: `a < b` / `a == b`
character by character. -/
def lexLe : List Char → List Char → Bool
  | [], _ => true
  | _ :: _, [] => false
  | a :: as, b :: bs => if a = b then lexLe as bs else decide (a.toNat < b.toNat)

/-- A snapshot's data dict as built in `save_packages_to_file`. -/
structure SnapshotData where
  metadata : JsonObj
  timestamp : String
  packageManager : String
  packages : List (String × PackageRecord)

mutual
/-- Python `repr` of a metadata value, as interpolated by the f-string
metadata lines of the text rendering (string escaping inside `repr` is
not modelled; no claim depends on the metadata block's exact bytes). -/
def pyReprJson : Json → String
  | .null => "None"
  | .str s => String.mk ('\x27' :: (s.data ++ ['\x27']))
  | .num n => String.mk (natToChars n)
  | .arr es => "[" ++ pyReprArr es ++ "]"
  | .obj fs => "\x7b" ++ pyReprObj fs ++ "\x7d"
/-- Python `repr` of a list's elements, comma-joined. -/
def pyReprArr : JsonArr → String
  | .anil => ""
  | .acons h .anil => pyReprJson h
  | .acons h t => pyReprJson h ++ ", " ++ pyReprArr t
/-- Python `repr` of a dict's members, comma-joined. -/
def pyReprObj : JsonObj → String
  | .onil => ""
  | .ocons k v .onil => String.mk ('\x27' :: (k.data ++ ['\x27'])) ++ ": " ++ pyReprJson v
  | .ocons k v t =>
      String.mk ('\x27' :: (k.data ++ ['\x27'])) ++ ": " ++ pyReprJson v ++ ", " ++ pyReprObj t
end

/-- Python `str` of a metadata value in an f-string: a string
interpolates raw, everything else via `repr`. -/
def pyStrTop : Json → String
  | .str s => s
  | v => pyReprJson v

/-- The `f"{key}: {value}"` metadata lines. -/
def metaItemLines : JsonObj → List String
  | .onil => []
  | .ocons k v t => (k ++ ": " ++ pyStrTop v) :: metaItemLines t

/-- Python `', '.join`. -/
def joinCommaSpace : List String → String
  | [] => ""
  | [s] => s
  | s :: rest => s ++ ", " ++ joinCommaSpace rest

/-- Python `'\n'.join`. -/
def joinNewline : List String → String
  | [] => ""
  | [s] => s
  | s :: rest => s ++ "\n" ++ joinNewline rest

/-- Stable insertion of one pair into a name-sorted list: the new pair
goes before the first entry whose name is not smaller. -/
def insertSorted (x : String × PackageRecord) :
    List (String × PackageRecord) → List (String × PackageRecord)
  | [] => [x]
  | y :: ys => if lexLe x.1.data y.1.data then x :: y :: ys else y :: insertSorted x ys

/-- `sorted(data['packages'].items())`: Python's stable sort compares
the `(name, record)` tuples, which with unique names orders by name
alone (equal names would make Python compare the dict values and
raise); modelled as a stable insertion sort, which agrees with any
stable sort for this comparison. -/
def sortPairs : List (String × PackageRecord) → List (String × PackageRecord)
  | [] => []
  | x :: xs => insertSorted x (sortPairs xs)

/-- One package entry of the text rendering.  The `detailed` flag the
comprehension reads is the script-level global of the `__main__` block,
passed here explicitly. -/
def textPackageBlock (detailed : Bool) (p : String × PackageRecord) : String :=
  if detailed then
    p.1 ++ " (" ++ p.2.version ++ ")\n  Description: " ++ p.2.description.getD "N/A" ++
      "\n  Dependencies: " ++ joinCommaSpace (p.2.dependencies.getD []) ++ "\n"
  else
    p.1 ++ " (" ++ p.2.version ++ ")\n"

/-- The package entries of the text rendering, in emitted order. -/
def textPackageBlocks (packages : List (String × PackageRecord)) (detailed : Bool) :
    List String :=
  (sortPairs packages).map (textPackageBlock detailed)

/-- The names of the packages in the order the text rendering emits
them. -/
def textPackageNamesInOrder (packages : List (String × PackageRecord)) : List String :=
  (sortPairs packages).map Prod.fst

/-- The text rendering of `_write_data_to_file`: the `content` list
joined with newlines. -/
def renderText (data : SnapshotData) (detailed : Bool) : String :=
  joinNewline
    (["System Metadata:"] ++ metaItemLines data.metadata ++
     ["\nPackage snapshot taken at: " ++ data.timestamp,
      "Package manager: " ++ data.packageManager ++ "\n"] ++
     textPackageBlocks data.packages detailed)

/-- A file on disk: its logical text, and whether it was written through
the gzip layer — reading it back through a mismatched layer fails. -/
structure FileData where
  gzipped : Bool
  text : String

deriving DecidableEq

/-- The filesystem: a mapping from path to file data. -/
def FS : Type := List (String × FileData)

/-- Path lookup. -/
def fsLookup : FS → String → Option FileData
  | [], _ => none
  | (p, fd) :: rest, path => if p = path then some fd else fsLookup rest path

/-- `os.remove` / the removal half of `os.replace`. -/
def fsRemove : FS → String → FS
  | [], _ => []
  | (p, fd) :: rest, path =>
      if p = path then fsRemove rest path else (p, fd) :: fsRemove rest path

/-- Reading a file's text through the layer selected by `compressed`
(`gzip.open(..., 'rt')` versus `open(..., 'r')`): a mismatch between
the layer and the file's actual encoding fails. -/
def readFileText (fs : FS) (path : String) (compressed : Bool) : Option String :=
  match fsLookup fs path with
  | some fd => if fd.gzipped = compressed then some fd.text else none
  | none => none

/-- A Python list of strings as a JSON array. -/
def strArr : List String → JsonArr
  | [] => .anil
  | s :: ss => .acons (.str s) (strArr ss)

/-- The optional enrichment keys of a per-package dict, in the order
`_prepare_package_data` inserts them. -/
def recordFieldsTail (r : PackageRecord) : JsonObj :=
  match r.description, r.dependencies with
  | some d, some ds =>
      .ocons "description" (.str d) (.ocons "dependencies" (.arr (strArr ds)) .onil)
  | some d, none => .ocons "description" (.str d) .onil
  | none, some ds => .ocons "dependencies" (.arr (strArr ds)) .onil
  | none, none => .onil

/-- A per-package dict as a JSON value: `version` first, then the
enrichment keys that are present. -/
def recordToJson (r : PackageRecord) : Json :=
  .obj (.ocons "version" (.str r.version) (recordFieldsTail r))

/-- The `packages` dict as a JSON object. -/
def packagesToObj : List (String × PackageRecord) → JsonObj
  | [] => .onil
  | (k, r) :: rest => .ocons k (recordToJson r) (packagesToObj rest)

/-- The `data` dict of `save_packages_to_file` as a JSON value, with its
keys in the literal's order. -/
def dataToJson (d : SnapshotData) : Json :=
  .obj (.ocons "metadata" (.obj d.metadata)
    (.ocons "timestamp" (.str d.timestamp)
      (.ocons "package_manager" (.str d.packageManager)
        (.ocons "packages" (.obj (packagesToObj d.packages)) .onil))))

/-- The content `_write_data_to_file` renders: `json.dump` of the data
dict when `json_format`, the joined text content otherwise. -/
def renderContent (data : SnapshotData) (jsonFormat detailed : Bool) : String :=
  if jsonFormat then serJson (dataToJson data) else renderText data detailed

/-- `_write_data_to_file`.  `fault` injects an exception raised inside
the `with` block before the render completes (carrying whatever partial
text had reached the temp file); on that path the handler removes the
temp artifact and re-raises as a `WriteError`-style `RuntimeError`.  On
the fault-free path the full render is written to `filename + '.tmp'`
and `os.replace` then moves it onto the destination. -/
def writeDataToFile (fs : FS) (filename : String) (data : SnapshotData)
    (jsonFormat compressed detailed : Bool) (fault : Option (String × String)) :
    FS × Except PTError Unit :=
  let tempFilename := filename ++ ".tmp"
  match fault with
  | some (partialText, msg) =>
      (fsRemove (dictUpd fs tempFilename ⟨compressed, partialText⟩) tempFilename,
       .error (.writeError msg))
  | none =>
      let content := renderContent data jsonFormat detailed
      let fs1 := dictUpd fs tempFilename ⟨compressed, content⟩
      (dictUpd (fsRemove fs1 tempFilename) filename ⟨compressed, content⟩, .ok ())

/-- The executables `save_packages_to_file` requires on PATH per
manager. -/
def requiredCommands (pm : String) : List String :=
  if pm = "apt" then ["dpkg-query", "apt-cache"]
  else if pm = "yum" then ["rpm"]
  else if pm = "pacman" then ["pacman"]
  else []

/-- The default filename extension for the chosen format/compression. -/
def defaultExt (jsonFormat compressed : Bool) : String :=
  if compressed ∧ jsonFormat then ".json.gz"
  else if jsonFormat then ".json"
  else if compressed then ".txt.gz"
  else ".txt"

/-- `timestamp.replace('_', ' ')`. -/
def tsDisplay (timestamp : String) : String :=
  String.mk (timestamp.data.map fun c => if c = '_' then ' ' else c)

/-- `save_packages_to_file`, from manager validation through the write
(the console prints and the `exit(1)` wrapper are the excluded CLI
surface; the raised error is returned instead).  `which` is the
`shutil.which` oracle, `timestamp` the formatted `datetime.now()`. -/
def savePackagesToFile (fs : FS) (distroId : String) (which : String → Bool)
    (exec : Exec) (facts : FactOracles) (timestamp : String) (filename : Option String)
    (jsonFormat compressed detailed testMode : Bool) (fault : Option (String × String)) :
    FS × Except PTError Unit :=
  let pm := detectPackageManager false distroId
  if pm = "unknown" then (fs, .error .unsupportedManager)
  else
    match (requiredCommands pm).find? (fun c => ! which c) with
    | some cmd => (fs, .error (.missingTool cmd))
    | none =>
        match getInstalledPackages distroId exec with
        | .error e => (fs, .error e)
        | .ok packages =>
            if packages.isEmpty then (fs, .error .emptyInventory)
            else
              let fname := filename.getD
                ("packages_" ++ timestamp ++ defaultExt jsonFormat compressed)
              match getSystemMetadata facts with
              | .error e => (fs, .error e)
              | .ok meta =>
                  match preparePackageData exec packages pm detailed testMode with
                  | .error e => (fs, .error e)
                  | .ok pkgData =>
                      let data : SnapshotData :=
                        ⟨meta, tsDisplay timestamp, pm, pkgData⟩
                      if testMode then (fs, .ok ())
                      else writeDataToFile fs fname data jsonFormat compressed detailed fault

/-- An oracle under which every required tool is on PATH. -/
def whichAll : String → Bool := fun _ => true

/-- A subprocess oracle whose listing output is empty. -/
def execEmptyOutput : Exec := fun _ => .ok ""

/-- The spec's concrete scenario: `{"bash": "5.1-2", "curl": "7.81.0-1"}`,
kind apt, detailed false, with a one-entry metadata block. -/
def snapshotScenario : SnapshotData :=
  { metadata := .ocons "hostname" (.str "h") .onil
    timestamp := "2024-01-02 03-04-05"
    packageManager := "apt"
    packages := [("bash", { version := "5.1-2" }), ("curl", { version := "7.81.0-1" })] }

/-- The value of a hexadecimal digit character. -/
def hexVal (c : Char) : Option Nat :=
  if '0' ≤ c ∧ c ≤ '9' then some (c.toNat - 48)
  else if 'a' ≤ c ∧ c ≤ 'f' then some (c.toNat - 87)
  else if 'A' ≤ c ∧ c ≤ 'F' then some (c.toNat - 55)
  else none

/-- The character a one-letter JSON string escape denotes. -/
def unescapeChar (e : Char) : Option Char :=
  if e = '"' then some '"'
  else if e = '\\' then some '\\'
  else if e = '/' then some '/'
  else if e = 'n' then some '\n'
  else if e = 't' then some '\t'
  else if e = 'r' then some '\r'
  else if e = 'b' then some '\x08'
  else if e = 'f' then some '\x0c'
  else none

/-- Parse the body of a JSON string (after the opening quote), returning
the decoded characters and the remainder after the closing quote. -/
def parseStrChars : List Char → Option (List Char × List Char)
  | [] => none
  | c :: cs =>
      if c = '"' then some ([], cs)
      else if c = '\\' then
        match cs with
        | 'u' :: h1 :: h2 :: h3 :: h4 :: cs' =>
            match hexVal h1, hexVal h2, hexVal h3, hexVal h4 with
            | some a, some b, some c2, some d =>
                (parseStrChars cs').map fun p =>
                  (Char.ofNat (4096 * a + 256 * b + 16 * c2 + d) :: p.1, p.2)
            | _, _, _, _ => none
        | e :: cs' =>
            match unescapeChar e with
            | some u => (parseStrChars cs').map fun p => (u :: p.1, p.2)
            | none => none
        | [] => none
      else (parseStrChars cs).map fun p => (c :: p.1, p.2)

/-- The numeric value of a digit character. -/
def digitVal (c : Char) : Nat := c.toNat - 48

/-- Parse a (non-negative) JSON number: the maximal digit run. -/
def parseNat (cs : List Char) : Option (Nat × List Char) :=
  let ds := cs.takeWhile Char.isDigit
  if ds.isEmpty then none
  else some (ds.foldl (fun a c => 10 * a + digitVal c) 0, cs.dropWhile Char.isDigit)

/-- Whether a character list starts with the given character. -/
def headIs (x : Char) : List Char → Bool
  | [] => false
  | d :: _ => d = x

mutual
/-- Recursive-descent JSON value parser; `fuel` bounds the recursion
depth and is in every use at least the input length, which suffices. -/
def parseValue : Nat → List Char → Option (Json × List Char)
  | 0, _ => none
  | _ + 1, [] => none
  | fuel + 1, c :: cs =>
      if c = '"' then (parseStrChars cs).map fun p => (.str (String.mk p.1), p.2)
      else if c = 'n' then
        match cs with
        | 'u' :: 'l' :: 'l' :: rest => some (.null, rest)
        | _ => none
      else if c = '[' then
        if headIs ']' cs then some (.arr .anil, cs.tail)
        else
          match parseValue fuel cs with
          | some (j, r1) =>
              match parseArrTail fuel r1 with
              | some (t, r2) => some (.arr (.acons j t), r2)
              | none => none
          | none => none
      else if c = '\x7b' then
        if headIs '\x7d' cs then some (.obj .onil, cs.tail)
        else if headIs '"' cs then
          match parseStrChars cs.tail with
          | some (k, r1) =>
              if headIs ':' r1 then
                match parseValue fuel r1.tail with
                | some (v, r2) =>
                    match parseObjTail fuel r2 with
                    | some (t, r3) => some (.obj (.ocons (String.mk k) v t), r3)
                    | none => none
                | none => none
              else none
          | none => none
        else none
      else if c.isDigit then (parseNat (c :: cs)).map fun p => (.num p.1, p.2)
      else none
/-- Parser for the part of an array after its first element: a `,` and
another element, repeated, then the closing bracket. -/
def parseArrTail : Nat → List Char → Option (JsonArr × List Char)
  | 0, _ => none
  | _ + 1, [] => none
  | fuel + 1, c :: cs =>
      if c = ']' then some (.anil, cs)
      else if c = ',' then
        match parseValue fuel cs with
        | some (j, r1) =>
            match parseArrTail fuel r1 with
            | some (t, r2) => some (.acons j t, r2)
            | none => none
        | none => none
      else none
/-- Parser for the part of an object after its first member. -/
def parseObjTail : Nat → List Char → Option (JsonObj × List Char)
  | 0, _ => none
  | _ + 1, [] => none
  | fuel + 1, c :: cs =>
      if c = '\x7d' then some (.onil, cs)
      else if c = ',' then
        if headIs '"' cs then
          match parseStrChars cs.tail with
          | some (k, r1) =>
              if headIs ':' r1 then
                match parseValue fuel r1.tail with
                | some (v, r2) =>
                    match parseObjTail fuel r2 with
                    | some (t, r3) => some (.ocons (String.mk k) v t, r3)
                    | none => none
                | none => none
              else none
          | none => none
        else none
      else none
end

/-- `json.loads`: parse, requiring the whole input to be consumed. -/
def parseJsonString (s : String) : Option Json :=
  match parseValue (s.data.length + 1) s.data with
  | some (j, []) => some j
  | _ => none

mutual
/-- Recursion-depth bound of a JSON value: fuel at least this makes the
parser total on its serialization. -/
def jsize : Json → Nat
  | .null => 1
  | .str _ => 1
  | .num _ => 1
  | .arr es => 1 + tsize es
  | .obj fs => 1 + osize fs
/-- Recursion-depth bound of an array tail. -/
def tsize : JsonArr → Nat
  | .anil => 1
  | .acons h t => 1 + max (jsize h) (tsize t)
/-- Recursion-depth bound of an object tail. -/
def osize : JsonObj → Nat
  | .onil => 1
  | .ocons _ v t => 1 + max (jsize v) (osize t)
end

/-- The remainder a number may be followed by: anything not starting
with a digit. -/
def dfree : List Char → Prop
  | [] => True
  | c :: _ => c.isDigit = false

/-- Lookup of a key in a JSON object, first match. -/
def objLookup (key : String) : JsonObj → Option Json
  | .onil => none
  | .ocons k v t => if k = key then some v else objLookup key t

/-- The name/version pairs read back from a parsed `packages` object. -/
def versionsOf : JsonObj → Option (List (String × String))
  | .onil => some []
  | .ocons k v t =>
      match v with
      | .obj vf =>
          match objLookup "version" vf with
          | some (.str ver) => (versionsOf t).map (fun l => (k, ver) :: l)
          | _ => none
      | _ => none

/-- The name/version pairs under the `packages` field of a parsed
snapshot document. -/
def packagesVersionsOf : Json → Option (List (String × String))
  | .obj fs =>
      match objLookup "packages" fs with
      | some (.obj pf) => versionsOf pf
      | _ => none
  | _ => none

/-- A one-package snapshot used to instantiate the round-trip
theorem. -/
def snapshotSmall : SnapshotData :=
  { metadata := .onil, timestamp := "t", packageManager := "apt"
    packages := [("a", { version := "1" })] }

/-! ## Theorems -/

theorem dictOfPairsGo_error_of_bad_row :
    ∀ (rows : List (List String)) (m : List (String × String)),
      (∃ row ∈ rows, row.length ≠ 2) →
      dictOfPairsGo m rows = .error (.parseError dictLenMsg)
  | [], _, h => by rcases h with ⟨row, hmem, _⟩; cases hmem
  | row :: rest, m, h => by
      rcases row with _ | ⟨a, _ | ⟨b, _ | ⟨c, cs⟩⟩⟩
      · simp [dictOfPairsGo, dictLenMsg]
      · simp [dictOfPairsGo, dictLenMsg]
      · rcases h with ⟨row', hmem, hlen⟩
        rcases List.mem_cons.mp hmem with h' | h'
        · subst h'; simp at hlen
        · simpa [dictOfPairsGo] using
            dictOfPairsGo_error_of_bad_row rest (dictUpd m a b) ⟨row', h', hlen⟩
      · simp [dictOfPairsGo, dictLenMsg]

/-- C6: a non-empty line of the subprocess output that does not split
into exactly two tokens under the backend's separator makes the whole
lister invocation fail with the `ValueError` from `dict(...)`; no
malformed line is skipped. -/
theorem lister_rejects_malformed_line (pm : String) (output : String) (line : List Char)
    (hpm : pm = "apt" ∨ pm = "yum" ∨ pm = "pacman")
    (hmem : line ∈ pySplitlinesL output.data) (hne : line ≠ [])
    (hbad : (sepTokens pm line).length ≠ 2) :
    parseListing pm output = .error (.parseError dictLenMsg) := by
  have key : ∀ (split : List Char → List (List Char)), (split line).length ≠ 2 →
      dictOfPairs ((pySplitlinesL output.data).map (fun l => (split l).map String.mk)) =
        .error (.parseError dictLenMsg) := by
    intro split hsplit
    apply dictOfPairsGo_error_of_bad_row
    refine ⟨(split line).map String.mk, List.mem_map_of_mem _ hmem, ?_⟩
    simpa using hsplit
  rcases hpm with h | h | h <;> subst h
  · simpa [parseListing, getAptPackagesFrom] using
      key (pySplitSepL '\t') (by simpa [sepTokens] using hbad)
  · simpa [parseListing, getYumPackagesFrom] using
      key (pySplitSepL '\t') (by simpa [sepTokens] using hbad)
  · simpa [parseListing, getPacmanPackagesFrom] using
      key pySplitWsL (by simpa [sepTokens] using hbad)

theorem lister_rejects_malformed_line_witness :
    ("apt" = "apt" ∨ "apt" = "yum" ∨ "apt" = "pacman") ∧
    "bash 5.1-2".data ∈ pySplitlinesL ("bash 5.1-2" : String).data ∧
    "bash 5.1-2".data ≠ [] ∧
    (sepTokens "apt" "bash 5.1-2".data).length ≠ 2 ∧
    parseListing "apt" "bash 5.1-2" = .error (.parseError dictLenMsg) :=
  ⟨Or.inl rfl, by decide, by decide, by decide,
    lister_rejects_malformed_line "apt" "bash 5.1-2" "bash 5.1-2".data
      (Or.inl rfl) (by decide) (by decide) (by decide)⟩

/-- C5 counterexample: two well-formed rows sharing the package name
`a` do not raise; the lister returns a mapping in which the later row's
version has silently overwritten the earlier one. -/
theorem lister_duplicate_rows_counterexample :
    getAptPackagesFrom "a\t1\na\t2" = .ok [("a", "2")] ∧
    ∀ e, getAptPackagesFrom "a\t1\na\t2" ≠ .error e := by
  refine ⟨by decide, ?_⟩
  intro e h
  rw [show getAptPackagesFrom "a\t1\na\t2" = .ok [("a", "2")] from by decide] at h
  exact Except.noConfusion h

/-- C5 amended: duplicate well-formed rows are accepted and the later
row wins — `dict(...)` updates the earlier entry in place, and the
listers inherit that behavior. -/
theorem lister_duplicate_rows_amended :
    (∀ k v₁ v₂ : String, dictOfPairs [[k, v₁], [k, v₂]] = .ok [(k, v₂)]) ∧
    getAptPackagesFrom "x\t1\nx\t2" = .ok [("x", "2")] := by
  refine ⟨?_, by decide⟩
  intro k v₁ v₂
  simp [dictOfPairs, dictOfPairsGo, dictUpd]

theorem recUpd_append_of_not_mem (acc : List (String × PackageRecord)) (k : String)
    (v : PackageRecord) (h : k ∉ acc.map Prod.fst) : recUpd acc k v = acc ++ [(k, v)] := by
  induction acc with
  | nil => rfl
  | cons a rest ih =>
      simp only [List.map_cons, List.mem_cons] at h
      push_neg at h
      simp [recUpd, Ne.symm h.1, ih h.2]

theorem exceptPure_eq_ok {γ α : Type} (a : α) : (pure a : Except γ α) = .ok a := rfl

theorem exceptBind_ok {γ α β : Type} (a : α) (f : α → Except γ β) :
    (Except.ok a >>= f) = f a := rfl

theorem exceptBind_error {γ α β : Type} (e : γ) (f : α → Except γ β) :
    ((Except.error e : Except γ α) >>= f) = .error e := rfl

theorem exceptMap_ok {γ α β : Type} (f : α → β) (a : α) :
    (f <$> (Except.ok a : Except γ α)) = .ok (f a) := rfl

theorem exceptMap_error {γ α β : Type} (f : α → β) (e : γ) :
    (f <$> (Except.error e : Except γ α)) = .error e := rfl

theorem getPackageDetails_empty_of_fail (exec : Exec) (e : PTError)
    (hexec : ∀ cmd, exec cmd = .error e) (pm pkg : String) :
    getPackageDetails exec pm pkg = .ok {} := by
  simp only [getPackageDetails]
  split_ifs <;>
    simp [getAptPackageDetails, getYumPackageDetails, getPacmanPackageDetails, hexec]

theorem preparePackageData_aux_of_all_fail (exec : Exec) (e : PTError)
    (hexec : ∀ cmd, exec cmd = .error e) (pm : String) (detailed : Bool) :
    ∀ (packages : List (String × String)) (acc : List (String × PackageRecord)),
      (acc.map Prod.fst ++ packages.map Prod.fst).Nodup →
      packages.foldlM
        (fun acc p =>
          if detailed then do
            let det ← getPackageDetails exec pm p.1
            pure (recUpd acc p.1 (applyDetails { version := p.2 } det))
          else
            pure (recUpd acc p.1 { version := p.2 }))
        acc = .ok (acc ++ packages.map fun p => (p.1, { version := p.2 }))
  | [], acc, _ => by simp [exceptPure_eq_ok]
  | p :: rest, acc, hnd => by
      have hk : p.1 ∉ acc.map Prod.fst := by
        intro hmem
        rcases List.nodup_append.mp hnd with ⟨-, -, hdisj⟩
        exact hdisj hmem (by simp)
      have hstep : recUpd acc p.1 ({ version := p.2 } : PackageRecord) =
          acc ++ [(p.1, { version := p.2 })] := recUpd_append_of_not_mem acc _ _ hk
      have hnd' : ((acc ++ [(p.1, ({ version := p.2 } : PackageRecord))]).map Prod.fst ++
          rest.map Prod.fst).Nodup := by
        simpa using hnd
      have ih := preparePackageData_aux_of_all_fail exec e hexec pm detailed rest
        (acc ++ [(p.1, { version := p.2 })]) hnd'
      have happ : applyDetails { version := p.2 } ({} : PackageDetails) =
          ({ version := p.2 } : PackageRecord) := rfl
      cases detailed <;>
        simp_all [List.foldlM_cons, getPackageDetails_empty_of_fail exec e hexec, happ,
          hstep, exceptPure_eq_ok, exceptBind_ok]

/-- C7: when every detail subprocess fails, the fetcher returns an empty
details dict instead of propagating, and `_prepare_package_data`
succeeds with each package keeping exactly its listed version and no
description or dependency fields. -/
theorem detail_fetch_failure_is_best_effort (exec : Exec) (e : PTError)
    (hexec : ∀ cmd, exec cmd = .error e) (pm pkg : String)
    (packages : List (String × String)) (testMode : Bool)
    (hnd : (packages.map Prod.fst).Nodup) :
    getPackageDetails exec pm pkg = .ok {} ∧
    preparePackageData exec packages pm true testMode =
      .ok (packages.map fun p => (p.1, { version := p.2 })) := by
  refine ⟨getPackageDetails_empty_of_fail exec e hexec pm pkg, ?_⟩
  simpa [preparePackageData] using
    preparePackageData_aux_of_all_fail exec e hexec pm true packages [] (by simpa using hnd)

theorem detail_fetch_failure_is_best_effort_witness :
    (∀ cmd, failingExec cmd = .error (.commandFailed "boom")) ∧
    ((([("curl", "7.81.0-1")] : List (String × String)).map Prod.fst).Nodup) ∧
    getPackageDetails failingExec "apt" "curl" = .ok {} ∧
    preparePackageData failingExec [("curl", "7.81.0-1")] "apt" true false =
      .ok [("curl", { version := "7.81.0-1" })] :=
  ⟨fun _ => rfl, by simp,
    (detail_fetch_failure_is_best_effort failingExec
      (.commandFailed "boom") (fun _ => rfl) "apt" "curl" [("curl", "7.81.0-1")] false
      (by simp)).1,
    (detail_fetch_failure_is_best_effort failingExec
      (.commandFailed "boom") (fun _ => rfl) "apt" "curl" [("curl", "7.81.0-1")] false
      (by simp)).2⟩

theorem preparePackageData_aux_keys (exec : Exec) (pm : String) (detailed : Bool) :
    ∀ (packages : List (String × String)) (acc : List (String × PackageRecord))
      (result : List (String × PackageRecord)),
      (acc.map Prod.fst ++ packages.map Prod.fst).Nodup →
      packages.foldlM
        (fun acc p =>
          if detailed then do
            let det ← getPackageDetails exec pm p.1
            pure (recUpd acc p.1 (applyDetails { version := p.2 } det))
          else
            pure (recUpd acc p.1 { version := p.2 }))
        acc = .ok result →
      result.map Prod.fst = acc.map Prod.fst ++ packages.map Prod.fst ∧
      result.map (fun p => p.2.version) =
        acc.map (fun p => p.2.version) ++ packages.map Prod.snd
  | [], acc, result, _, h => by
      simp only [List.foldlM_nil] at h
      cases h
      simp
  | p :: rest, acc, result, hnd, h => by
      have hk : p.1 ∉ acc.map Prod.fst := by
        intro hmem
        rcases List.nodup_append.mp hnd with ⟨-, -, hdisj⟩
        exact hdisj hmem (by simp)
      cases hdt : detailed with
      | false =>
          rw [hdt] at h
          simp only [List.foldlM_cons, Bool.false_eq_true, if_false, exceptPure_eq_ok,
            exceptBind_ok, recUpd_append_of_not_mem acc p.1 _ hk] at h
          have hnd' : ((acc ++ [(p.1, ({ version := p.2 } : PackageRecord))]).map Prod.fst ++
              rest.map Prod.fst).Nodup := by simpa using hnd
          have := preparePackageData_aux_keys exec pm detailed rest
            (acc ++ [(p.1, { version := p.2 })]) result hnd' (by rw [hdt]; exact h)
          simpa using this
      | true =>
          rw [hdt] at h
          simp only [List.foldlM_cons, if_true] at h
          rcases hdet : getPackageDetails exec pm p.1 with e | det
          · rw [hdet] at h
            simp only [exceptMap_error, exceptBind_error] at h
            exact Except.noConfusion h
          · rw [hdet] at h
            simp only [exceptMap_ok, exceptBind_ok, exceptPure_eq_ok,
              recUpd_append_of_not_mem acc p.1 _ hk] at h
            have hnd' : ((acc ++ [(p.1, applyDetails { version := p.2 } det)]).map Prod.fst ++
                rest.map Prod.fst).Nodup := by simpa using hnd
            have := preparePackageData_aux_keys exec pm detailed rest
              (acc ++ [(p.1, applyDetails { version := p.2 } det)]) result hnd'
              (by rw [hdt]; exact h)
            have hver : (applyDetails { version := p.2 } det).version = p.2 := rfl
            simpa [hver] using this

/-- C10: whenever `_prepare_package_data` returns, the returned mapping
has exactly the input's package names in the input's order and every
record's version is the listed version; detail enrichment can only fill
the description and dependency fields. -/
theorem prepare_preserves_names_and_versions (exec : Exec) (pm : String)
    (detailed testMode : Bool) (packages : List (String × String))
    (result : List (String × PackageRecord))
    (hnd : (packages.map Prod.fst).Nodup)
    (h : preparePackageData exec packages pm detailed testMode = .ok result) :
    result.map Prod.fst = packages.map Prod.fst ∧
    result.map (fun p => p.2.version) = packages.map Prod.snd := by
  simpa using preparePackageData_aux_keys exec pm detailed packages [] result
    (by simpa using hnd) h

theorem prepare_preserves_names_and_versions_witness :
    ((([("a", "1"), ("b", "2")] : List (String × String)).map Prod.fst).Nodup) ∧
    preparePackageData (fun _ => .error (.commandFailed "down")) [("a", "1"), ("b", "2")]
      "apt" true false = .ok [("a", { version := "1" }), ("b", { version := "2" })] ∧
    (([("a", ({ version := "1" } : PackageRecord)), ("b", { version := "2" })]).map
        Prod.fst = ([("a", "1"), ("b", "2")] : List (String × String)).map Prod.fst ∧
      ([("a", ({ version := "1" } : PackageRecord)), ("b", { version := "2" })]).map
        (fun p => p.2.version) = ([("a", "1"), ("b", "2")] : List (String × String)).map
          Prod.snd) :=
  ⟨by simp, by decide,
    prepare_preserves_names_and_versions (fun _ => .error (.commandFailed "down")) "apt"
      true false [("a", "1"), ("b", "2")] [("a", { version := "1" }), ("b", { version := "2" })]
      (by simp) (by decide)⟩

/-- C8 counterexample: when the hostname read raises, the whole metadata
collection fails — `_get_system_metadata` substitutes no placeholder and
has no handler, so the claim that collection never fails because one
fact cannot be read is false. -/
theorem metadata_collection_fails_on_hostname :
    getSystemMetadata factsHostnameDown = .error (.commandFailed "socket.gaierror") := rfl

/-- C8 amended: facts whose host APIs report unavailability by returning
a default value (empty string, `None` cpu count) flow through the
collector unchanged and never fail it, but an exception raised while
reading the hostname propagates and fails the whole collection. -/
theorem metadata_collection_amended :
    (∀ (facts : FactOracles) (e : PTError), facts.hostname = .error e →
      getSystemMetadata facts = .error e) ∧
    (∀ (facts : FactOracles) (host : String), facts.hostname = .ok host →
      getSystemMetadata facts = .ok (systemMetadataObj host facts)) :=
  ⟨fun facts e h => by simp [getSystemMetadata, h],
   fun facts host h => by simp [getSystemMetadata, h]⟩

theorem metadata_collection_amended_witness :
    getSystemMetadata factsHostnameDown = .error (.commandFailed "socket.gaierror") ∧
    getSystemMetadata factsHealthy = .ok (systemMetadataObj "host1" factsHealthy) :=
  ⟨metadata_collection_amended.1 factsHostnameDown (.commandFailed "socket.gaierror") rfl,
   metadata_collection_amended.2 factsHealthy "host1" rfl⟩

theorem fsLookup_dictUpd_self (m : FS) (k : String) (v : FileData) :
    fsLookup (dictUpd m k v) k = some v := by
  induction m with
  | nil => simp [dictUpd, fsLookup]
  | cons a rest ih =>
      obtain ⟨a1, a2⟩ := a
      by_cases h : a1 = k
      · subst h; simp [dictUpd, fsLookup]
      · simp [dictUpd, fsLookup, h, ih]

theorem fsLookup_dictUpd_ne (m : FS) (k k' : String) (v : FileData) (h : k ≠ k') :
    fsLookup (dictUpd m k v) k' = fsLookup m k' := by
  induction m with
  | nil => simp [dictUpd, fsLookup, h]
  | cons a rest ih =>
      obtain ⟨a1, a2⟩ := a
      by_cases h1 : a1 = k
      · subst h1; simp [dictUpd, fsLookup, h]
      · by_cases h2 : a1 = k' <;> simp [dictUpd, fsLookup, h1, h2, Ne.symm h, ih]

theorem fsLookup_fsRemove_self (m : FS) (k : String) :
    fsLookup (fsRemove m k) k = none := by
  induction m with
  | nil => rfl
  | cons a rest ih =>
      obtain ⟨a1, a2⟩ := a
      by_cases h : a1 = k <;> simp [fsRemove, fsLookup, h, ih]

theorem fsLookup_fsRemove_ne (m : FS) (k k' : String) (h : k ≠ k') :
    fsLookup (fsRemove m k) k' = fsLookup m k' := by
  induction m with
  | nil => rfl
  | cons a rest ih =>
      obtain ⟨a1, a2⟩ := a
      by_cases h1 : a1 = k
      · subst h1; simp [fsRemove, fsLookup, Ne.symm (fun hk => h hk.symm), ih]
      · by_cases h2 : a1 = k' <;> simp [fsRemove, fsLookup, h1, h2, Ne.symm h, ih]

theorem ne_append_tmp (s : String) : s ≠ s ++ ".tmp" := by
  intro h
  have hl := congrArg String.length h
  rw [String.length_append] at hl
  have : (".tmp" : String).length = 4 := rfl
  omega

/-- C1: the writer renders to `filename + '.tmp'` and renames into
place only after the full render succeeds; on any failure during the
render the temp artifact is removed and a `WriteError` propagates.
After the call returns, no file is at the temp path, and the
destination holds its previous content on failure and exactly the full
render on success. -/
theorem write_is_atomic (fs : FS) (filename : String) (data : SnapshotData)
    (jsonFormat compressed detailed : Bool) (fault : Option (String × String)) :
    fsLookup (writeDataToFile fs filename data jsonFormat compressed detailed fault).1
        (filename ++ ".tmp") = none ∧
    fsLookup (writeDataToFile fs filename data jsonFormat compressed detailed fault).1
        filename =
      (match fault with
       | some _ => fsLookup fs filename
       | none => some ⟨compressed, renderContent data jsonFormat detailed⟩) ∧
    (writeDataToFile fs filename data jsonFormat compressed detailed fault).2 =
      (match fault with
       | some (_, msg) => .error (.writeError msg)
       | none => .ok ()) := by
  have hne : filename ≠ filename ++ ".tmp" := ne_append_tmp filename
  rcases fault with _ | ⟨p, msg⟩
  · refine ⟨?_, ?_, rfl⟩
    · simp only [writeDataToFile]
      rw [fsLookup_dictUpd_ne _ filename (filename ++ ".tmp") _ hne]
      exact fsLookup_fsRemove_self _ _
    · simp only [writeDataToFile]
      exact fsLookup_dictUpd_self _ _ _
  · refine ⟨?_, ?_, rfl⟩
    · simp only [writeDataToFile]
      exact fsLookup_fsRemove_self _ _
    · simp only [writeDataToFile]
      rw [fsLookup_fsRemove_ne _ (filename ++ ".tmp") filename (Ne.symm hne),
        fsLookup_dictUpd_ne _ (filename ++ ".tmp") filename _ (Ne.symm hne)]

/-- C4: with a supported manager and its tools present, a run whose
lister returns an empty mapping stops with the empty-inventory error
before assembling or persisting anything: the filesystem is returned
unchanged. -/
theorem empty_inventory_rejected (fs : FS) (distroId : String) (which : String → Bool)
    (exec : Exec) (facts : FactOracles) (timestamp : String) (filename : Option String)
    (jsonFormat compressed detailed testMode : Bool) (fault : Option (String × String))
    (hpm : detectPackageManager false distroId ≠ "unknown")
    (htools : (requiredCommands (detectPackageManager false distroId)).find?
      (fun c => ! which c) = none)
    (hempty : getInstalledPackages distroId exec = .ok []) :
    savePackagesToFile fs distroId which exec facts timestamp filename jsonFormat
      compressed detailed testMode fault = (fs, .error .emptyInventory) := by
  simp [savePackagesToFile, hpm, htools, hempty]

theorem empty_inventory_rejected_witness :
    detectPackageManager false "ubuntu" ≠ "unknown" ∧
    (requiredCommands (detectPackageManager false "ubuntu")).find?
      (fun c => ! whichAll c) = none ∧
    getInstalledPackages "ubuntu" execEmptyOutput = .ok [] ∧
    savePackagesToFile [] "ubuntu" whichAll execEmptyOutput factsHealthy
      "2024-01-02_03-04-05" none false false false false none =
      ([], .error .emptyInventory) :=
  ⟨by decide, by decide, by decide,
    empty_inventory_rejected [] "ubuntu" whichAll execEmptyOutput factsHealthy
      "2024-01-02_03-04-05" none false false false false none
      (by decide) (by decide) (by decide)⟩

/-- C2 counterexample: in the text rendering of the scenario the two
package lines are separated by a blank line — each entry ends in a
newline of its own and `'\n'.join` inserts another — so the package
section is not exactly the two adjacent lines the claim states. -/
theorem text_scenario_counterexample :
    pySplitlines (renderText snapshotScenario false) =
      ["System Metadata:", "hostname: h", "",
       "Package snapshot taken at: 2024-01-02 03-04-05", "Package manager: apt", "",
       "bash (5.1-2)", "", "curl (7.81.0-1)"] ∧
    (pySplitlines (renderText snapshotScenario false)).drop 6 ≠
      ["bash (5.1-2)", "curl (7.81.0-1)"] := by
  constructor
  · decide
  · decide

/-- C2 amended: the package section of the scenario's text rendering
reads `bash (5.1-2)`, a blank line, then `curl (7.81.0-1)`, in that
order and with nothing else. -/
theorem text_scenario_amended :
    (pySplitlines (renderText snapshotScenario false)).drop 6 =
      ["bash (5.1-2)", "", "curl (7.81.0-1)"] := by decide

theorem char_toNat_inj {a b : Char} (h : a.toNat = b.toNat) : a = b := by
  have ha := Char.ofNat_toNat a
  rw [h, Char.ofNat_toNat] at ha
  exact ha.symm

theorem lexLe_total : ∀ as bs : List Char, lexLe as bs = true ∨ lexLe bs as = true
  | [], _ => Or.inl rfl
  | _ :: _, [] => Or.inr rfl
  | a :: as, b :: bs => by
      by_cases h : a = b
      · subst h
        rcases lexLe_total as bs with h1 | h1
        · exact Or.inl (by simp [lexLe, h1])
        · exact Or.inr (by simp [lexLe, h1])
      · have hne : a.toNat ≠ b.toNat := fun hn => h (char_toNat_inj hn)
        rcases Nat.lt_or_ge a.toNat b.toNat with hlt | hge
        · exact Or.inl (by simp [lexLe, h, hlt])
        · have hlt : b.toNat < a.toNat := by omega
          exact Or.inr (by simp [lexLe, Ne.symm h, hlt])

theorem lexLe_trans : ∀ as bs cs : List Char,
    lexLe as bs = true → lexLe bs cs = true → lexLe as cs = true
  | [], _, _ => fun _ _ => rfl
  | _ :: _, [], _ => fun h1 _ => by simp [lexLe] at h1
  | _ :: _, _ :: _, [] => fun _ h2 => by simp [lexLe] at h2
  | a :: as, b :: bs, c :: cs => fun h1 h2 => by
      by_cases hab : a = b <;> by_cases hbc : b = c
      · subst hab; subst hbc
        simp only [lexLe, if_pos rfl] at h1 h2 ⊢
        exact lexLe_trans as bs cs h1 h2
      · subst hab
        simp only [lexLe, if_neg hbc] at h2
        simp only [lexLe, if_neg hbc]
        exact h2
      · subst hbc
        simp only [lexLe, if_neg hab] at h1
        simp only [lexLe, if_neg hab]
        exact h1
      · have h1' : a.toNat < b.toNat := by simpa [lexLe, hab] using h1
        have h2' : b.toNat < c.toNat := by simpa [lexLe, hbc] using h2
        have hac : a ≠ c := fun hc => by rw [hc] at h1'; omega
        simp only [lexLe, if_neg hac]
        simp only [decide_eq_true_eq]
        omega

theorem lexLe_antisymm : ∀ as bs : List Char,
    lexLe as bs = true → lexLe bs as = true → as = bs
  | [], [] => fun _ _ => rfl
  | [], _ :: _ => fun _ h2 => by simp [lexLe] at h2
  | _ :: _, [] => fun h1 _ => by simp [lexLe] at h1
  | a :: as, b :: bs => fun h1 h2 => by
      by_cases hab : a = b
      · subst hab
        simp only [lexLe, if_pos rfl] at h1 h2
        rw [lexLe_antisymm as bs h1 h2]
      · simp only [lexLe, if_neg hab, decide_eq_true_eq] at h1
        simp only [lexLe, if_neg (Ne.symm hab), decide_eq_true_eq] at h2
        omega

theorem perm_insertSorted (x : String × PackageRecord) :
    ∀ l, (insertSorted x l).Perm (x :: l)
  | [] => List.Perm.refl _
  | y :: ys => by
      by_cases h : lexLe x.1.data y.1.data = true
      · rw [insertSorted, if_pos h]
      · rw [insertSorted, if_neg h]
        exact ((perm_insertSorted x ys).cons y).trans (List.Perm.swap x y ys)

theorem sortPairs_perm : ∀ l : List (String × PackageRecord), (sortPairs l).Perm l
  | [] => List.Perm.refl _
  | x :: xs => (perm_insertSorted x (sortPairs xs)).trans ((sortPairs_perm xs).cons x)

theorem pairwise_insertSorted (x : String × PackageRecord)
    (l : List (String × PackageRecord))
    (h : l.Pairwise (fun a b => lexLe a.1.data b.1.data = true)) :
    (insertSorted x l).Pairwise (fun a b => lexLe a.1.data b.1.data = true) := by
  induction l with
  | nil => simp [insertSorted]
  | cons y ys ih =>
      rcases List.pairwise_cons.mp h with ⟨hy, hys⟩
      by_cases hxy : lexLe x.1.data y.1.data = true
      · rw [insertSorted, if_pos hxy]
        refine List.pairwise_cons.mpr ⟨?_, h⟩
        intro z hz
        rcases List.mem_cons.mp hz with rfl | hz
        · exact hxy
        · exact lexLe_trans _ _ _ hxy (hy z hz)
      · rw [insertSorted, if_neg hxy]
        refine List.pairwise_cons.mpr ⟨?_, ih hys⟩
        intro z hz
        have hz' := (perm_insertSorted x ys).mem_iff.mp hz
        rcases List.mem_cons.mp hz' with rfl | hz'
        · rcases lexLe_total z.1.data y.1.data with h1 | h1
          · exact absurd h1 hxy
          · exact h1
        · exact hy z hz'

theorem sortPairs_sorted : ∀ l : List (String × PackageRecord),
    (sortPairs l).Pairwise (fun a b => lexLe a.1.data b.1.data = true)
  | [] => List.Pairwise.nil
  | x :: xs => pairwise_insertSorted x _ (sortPairs_sorted xs)

theorem sorted_unique_keys_eq : ∀ l₁ l₂ : List (String × PackageRecord),
    l₁.Perm l₂ →
    l₁.Pairwise (fun a b => lexLe a.1.data b.1.data = true) →
    l₂.Pairwise (fun a b => lexLe a.1.data b.1.data = true) →
    (l₁.map Prod.fst).Nodup → l₁ = l₂
  | [], l₂, hp, _, _, _ => (hp.symm.eq_nil).symm
  | a :: t, l₂, hp, hs₁, hs₂, hnd => by
      cases l₂ with
      | nil => exact absurd hp.eq_nil (by simp)
      | cons b t₂ =>
          have hamem : a ∈ b :: t₂ := hp.subset (List.mem_cons_self a t)
          have hbmem : b ∈ a :: t := hp.symm.subset (List.mem_cons_self b t₂)
          have hab : a = b := by
            by_cases h : a = b
            · exact h
            · have ha2 : a ∈ t₂ := by
                rcases List.mem_cons.mp hamem with h' | h'
                · exact absurd h' h
                · exact h'
              have hb1 : b ∈ t := by
                rcases List.mem_cons.mp hbmem with h' | h'
                · exact absurd h'.symm h
                · exact h'
              have h1 : lexLe a.1.data b.1.data = true :=
                (List.pairwise_cons.mp hs₁).1 b hb1
              have h2 : lexLe b.1.data a.1.data = true :=
                (List.pairwise_cons.mp hs₂).1 a ha2
              have hdata : a.1.data = b.1.data := lexLe_antisymm _ _ h1 h2
              have hkey : a.1 = b.1 := by
                calc a.1 = String.mk a.1.data := rfl
                  _ = String.mk b.1.data := by rw [hdata]
                  _ = b.1 := rfl
              rcases List.nodup_cons.mp (by simpa only [List.map_cons] using hnd) with ⟨hna, -⟩
              exact absurd (hkey ▸ List.mem_map_of_mem Prod.fst hb1) hna
          subst hab
          have htail := sorted_unique_keys_eq t t₂ hp.cons_inv
            (List.pairwise_cons.mp hs₁).2 (List.pairwise_cons.mp hs₂).2
            (List.nodup_cons.mp (by simpa only [List.map_cons] using hnd)).2
          rw [htail]

/-- C3: the text rendering emits its per-package blocks sorted
lexicographically by package name, and two package mappings that are
permutations of each other (as a mapping: unique names) render to the
same text, so the Lister's enumeration order is irrelevant. -/
theorem text_output_sorted_and_order_independent
    (meta : JsonObj) (ts pm : String) (detailed : Bool)
    (packages₁ packages₂ : List (String × PackageRecord))
    (hperm : packages₁.Perm packages₂)
    (hnd : (packages₁.map Prod.fst).Nodup) :
    List.Pairwise (fun a b : String => lexLe a.data b.data = true)
      (textPackageNamesInOrder packages₁) ∧
    renderText ⟨meta, ts, pm, packages₁⟩ detailed =
      renderText ⟨meta, ts, pm, packages₂⟩ detailed := by
  have hpermsort : (sortPairs packages₁).Perm (sortPairs packages₂) :=
    (sortPairs_perm packages₁).trans (hperm.trans (sortPairs_perm packages₂).symm)
  have hndsort : ((sortPairs packages₁).map Prod.fst).Nodup :=
    (((sortPairs_perm packages₁).map Prod.fst).nodup_iff).mpr hnd
  have heq : sortPairs packages₁ = sortPairs packages₂ :=
    sorted_unique_keys_eq _ _ hpermsort (sortPairs_sorted packages₁)
      (sortPairs_sorted packages₂) hndsort
  constructor
  · exact List.pairwise_map.mpr (sortPairs_sorted packages₁)
  · unfold renderText textPackageBlocks
    rw [heq]

theorem text_output_sorted_witness :
    (([("curl", ({ version := "7.81.0-1" } : PackageRecord)),
       ("bash", { version := "5.1-2" })] : List (String × PackageRecord)).Perm
      [("bash", { version := "5.1-2" }), ("curl", { version := "7.81.0-1" })]) ∧
    ((([("curl", ({ version := "7.81.0-1" } : PackageRecord)),
        ("bash", { version := "5.1-2" })]).map Prod.fst).Nodup) ∧
    (List.Pairwise (fun a b : String => lexLe a.data b.data = true)
      (textPackageNamesInOrder
        [("curl", { version := "7.81.0-1" }), ("bash", { version := "5.1-2" })]) ∧
    renderText ⟨.ocons "hostname" (.str "h") .onil, "2024-01-02 03-04-05", "apt",
        [("curl", { version := "7.81.0-1" }), ("bash", { version := "5.1-2" })]⟩ false =
      renderText ⟨.ocons "hostname" (.str "h") .onil, "2024-01-02 03-04-05", "apt",
        [("bash", { version := "5.1-2" }), ("curl", { version := "7.81.0-1" })]⟩ false) :=
  ⟨by decide, by decide,
    text_output_sorted_and_order_independent (.ocons "hostname" (.str "h") .onil)
      "2024-01-02 03-04-05" "apt" false
      [("curl", { version := "7.81.0-1" }), ("bash", { version := "5.1-2" })]
      [("bash", { version := "5.1-2" }), ("curl", { version := "7.81.0-1" })]
      (by decide) (by decide)⟩

theorem digitChar_isDigit (d : Nat) : (digitChar d).isDigit = true := by
  unfold digitChar
  split <;> decide

theorem digitVal_digitChar (d : Nat) (h : d < 10) : digitVal (digitChar d) = d := by
  interval_cases d <;> decide

theorem natToCharsGo_ne_nil (fuel n : Nat) : natToCharsGo fuel n ≠ [] := by
  cases fuel with
  | zero => simp [natToCharsGo]
  | succ fuel =>
      by_cases h : n < 10 <;> simp [natToCharsGo, h]

theorem natToChars_ne_nil (n : Nat) : natToChars n ≠ [] := natToCharsGo_ne_nil n n

theorem natToCharsGo_all_digits :
    ∀ (fuel n : Nat), ∀ c ∈ natToCharsGo fuel n, c.isDigit = true
  | 0, n, c, hc => by
      simp [natToCharsGo] at hc
      simp [hc, digitChar_isDigit]
  | fuel + 1, n, c, hc => by
      by_cases h : n < 10
      · simp [natToCharsGo, h] at hc
        simp [hc, digitChar_isDigit]
      · simp only [natToCharsGo, if_neg h, List.mem_append] at hc
        rcases hc with hc | hc
        · exact natToCharsGo_all_digits fuel (n / 10) c hc
        · simp at hc
          simp [hc, digitChar_isDigit]

theorem natToChars_all_digits (n : Nat) : ∀ c ∈ natToChars n, c.isDigit = true :=
  natToCharsGo_all_digits n n

theorem natToCharsGo_val :
    ∀ (fuel n : Nat), n ≤ fuel →
      (natToCharsGo fuel n).foldl (fun a c => 10 * a + digitVal c) 0 = n
  | 0, n, h => by
      have hn : n = 0 := by omega
      subst hn
      simp [natToCharsGo, List.foldl, digitVal_digitChar 0 (by omega)]
  | fuel + 1, n, h => by
      by_cases hlt : n < 10
      · simp [natToCharsGo, hlt, List.foldl, digitVal_digitChar n hlt]
      · rw [natToCharsGo, if_neg hlt, List.foldl_append]
        rw [natToCharsGo_val fuel (n / 10) (by omega)]
        simp only [List.foldl_cons, List.foldl_nil]
        rw [digitVal_digitChar (n % 10) (by omega)]
        omega

theorem natToChars_val (n : Nat) :
    (natToChars n).foldl (fun a c => 10 * a + digitVal c) 0 = n :=
  natToCharsGo_val n n (Nat.le_refl n)

theorem takeWhile_all_append {p : Char → Bool} :
    ∀ (l₁ l₂ : List Char), (∀ c ∈ l₁, p c = true) →
      (match l₂ with | [] => True | c :: _ => p c = false) →
      (l₁ ++ l₂).takeWhile p = l₁ ∧ (l₁ ++ l₂).dropWhile p = l₂
  | [], l₂, _, h2 => by
      cases l₂ with
      | nil => simp
      | cons c cs =>
          have hc : p c = false := h2
          simp [List.takeWhile_cons, List.dropWhile_cons, hc]
  | a :: l₁, l₂, h1, h2 => by
      have ha : p a = true := h1 a (by simp)
      have := takeWhile_all_append l₁ l₂ (fun c hc => h1 c (by simp [hc])) h2
      simp [List.takeWhile_cons, List.dropWhile_cons, ha, this.1, this.2]

theorem parseNat_natToChars (n : Nat) (rest : List Char) (h : dfree rest) :
    parseNat (natToChars n ++ rest) = some (n, rest) := by
  have hsplit := takeWhile_all_append (p := Char.isDigit) (natToChars n) rest
    (natToChars_all_digits n) (by cases rest with | nil => trivial | cons c cs => exact h)
  unfold parseNat
  rw [hsplit.1, hsplit.2]
  simp [natToChars_ne_nil n, List.isEmpty_iff, natToChars_val n]

theorem hexVal_hexDigitChar (d : Nat) (h : d < 16) : hexVal (hexDigitChar d) = some d := by
  interval_cases d <;> decide

theorem parseStrChars_escape : ∀ (s rest : List Char),
    parseStrChars (escapeL s ++ '"' :: rest) = some (s, rest)
  | [], rest => by
      rw [escapeL, List.nil_append, parseStrChars.eq_def]
      simp
  | c :: cs, rest => by
      have ih := parseStrChars_escape cs rest
      by_cases h1 : c = '"'
      · subst h1
        rw [escapeL, escChar, if_pos rfl]
        simp only [List.cons_append, List.singleton_append, List.nil_append]
        rw [parseStrChars.eq_def]
        simp [unescapeChar, ih]
      by_cases h2 : c = '\\'
      · subst h2
        rw [escapeL, escChar, if_neg (by decide), if_pos rfl]
        simp only [List.cons_append, List.singleton_append, List.nil_append]
        rw [parseStrChars.eq_def]
        simp [unescapeChar, ih]
      by_cases h3 : c = '\n'
      · subst h3
        rw [escapeL, escChar, if_neg (by decide), if_neg (by decide), if_pos rfl]
        simp only [List.cons_append, List.singleton_append, List.nil_append]
        rw [parseStrChars.eq_def]
        simp [unescapeChar, ih]
      by_cases h4 : c = '\t'
      · subst h4
        rw [escapeL, escChar, if_neg (by decide), if_neg (by decide), if_neg (by decide),
          if_pos rfl]
        simp only [List.cons_append, List.singleton_append, List.nil_append]
        rw [parseStrChars.eq_def]
        simp [unescapeChar, ih]
      by_cases h5 : c = '\r'
      · subst h5
        rw [escapeL, escChar, if_neg (by decide), if_neg (by decide), if_neg (by decide),
          if_neg (by decide), if_pos rfl]
        simp only [List.cons_append, List.singleton_append, List.nil_append]
        rw [parseStrChars.eq_def]
        simp [unescapeChar, ih]
      by_cases h6 : c = '\x08'
      · subst h6
        rw [escapeL, escChar, if_neg (by decide), if_neg (by decide), if_neg (by decide),
          if_neg (by decide), if_neg (by decide), if_pos rfl]
        simp only [List.cons_append, List.singleton_append, List.nil_append]
        rw [parseStrChars.eq_def]
        simp [unescapeChar, ih]
      by_cases h7 : c = '\x0c'
      · subst h7
        rw [escapeL, escChar, if_neg (by decide), if_neg (by decide), if_neg (by decide),
          if_neg (by decide), if_neg (by decide), if_neg (by decide), if_pos rfl]
        simp only [List.cons_append, List.singleton_append, List.nil_append]
        rw [parseStrChars.eq_def]
        simp [unescapeChar, ih]
      by_cases h8 : c.toNat < 32
      · rw [escapeL, escChar, if_neg h1, if_neg h2, if_neg h3, if_neg h4, if_neg h5,
          if_neg h6, if_neg h7, if_pos h8]
        have hdiv : c.toNat / 16 < 16 := by omega
        have hmod : c.toNat % 16 < 16 := by omega
        simp only [List.cons_append, List.nil_append]
        rw [parseStrChars.eq_def]
        simp only [if_neg (show ¬ ('\\' : Char) = '"' from by decide), if_pos rfl,
          show hexVal '0' = some 0 from by decide,
          hexVal_hexDigitChar _ hdiv, hexVal_hexDigitChar _ hmod, ih]
        rw [show 4096 * 0 + 256 * 0 + 16 * (c.toNat / 16) + c.toNat % 16 = c.toNat from
          by omega]
        simp [Char.ofNat_toNat]
      · rw [escapeL, escChar, if_neg h1, if_neg h2, if_neg h3, if_neg h4, if_neg h5,
          if_neg h6, if_neg h7, if_neg h8]
        simp only [List.cons_append, List.nil_append]
        rw [parseStrChars.eq_def]
        simp [h1, h2, ih]

theorem natToChars_head (n : Nat) : ∃ c cs, natToChars n = c :: cs ∧ c.isDigit = true := by
  cases hn : natToChars n with
  | nil => exact absurd hn (natToChars_ne_nil n)
  | cons c cs =>
      exact ⟨c, cs, rfl, natToChars_all_digits n c (by rw [hn]; exact List.mem_cons_self c cs)⟩

theorem serJsonL_head (j : Json) : ∃ c cs, serJsonL j = c :: cs ∧
    (c = 'n' ∨ c = '"' ∨ c.isDigit = true ∨ c = '[' ∨ c = '\x7b') := by
  cases j with
  | null => exact ⟨'n', _, rfl, Or.inl rfl⟩
  | str s => exact ⟨'"', _, rfl, Or.inr (Or.inl rfl)⟩
  | num m =>
      obtain ⟨c, cs, hn, hc⟩ := natToChars_head m
      exact ⟨c, cs, by simpa [serJsonL] using hn, Or.inr (Or.inr (Or.inl hc))⟩
  | arr es =>
      cases es with
      | anil => exact ⟨'[', _, rfl, Or.inr (Or.inr (Or.inr (Or.inl rfl)))⟩
      | acons h t => exact ⟨'[', _, rfl, Or.inr (Or.inr (Or.inr (Or.inl rfl)))⟩
  | obj fs =>
      cases fs with
      | onil => exact ⟨'\x7b', _, rfl, Or.inr (Or.inr (Or.inr (Or.inr rfl)))⟩
      | ocons k v t => exact ⟨'\x7b', _, rfl, Or.inr (Or.inr (Or.inr (Or.inr rfl)))⟩

theorem headIs_ser_false (x : Char) (j : Json) (r : List Char)
    (hn : x ≠ 'n') (hq : x ≠ '"') (hd : x.isDigit = false) (hb : x ≠ '[')
    (ho : x ≠ '\x7b') : headIs x (serJsonL j ++ r) = false := by
  obtain ⟨c, cs, hser, hc⟩ := serJsonL_head j
  rw [hser, List.cons_append]
  simp only [headIs, decide_eq_false_iff_not]
  rcases hc with rfl | rfl | hdg | rfl | rfl
  · exact Ne.symm hn
  · exact Ne.symm hq
  · exact fun h => by rw [h, hd] at hdg; cases hdg
  · exact Ne.symm hb
  · exact Ne.symm ho

theorem dfree_serArrTailL (t : JsonArr) (rest : List Char) :
    dfree (serArrTailL t ++ rest) := by
  cases t <;> simp only [serArrTailL, List.cons_append, List.singleton_append, dfree] <;>
    decide

theorem dfree_serObjTailL (t : JsonObj) (rest : List Char) :
    dfree (serObjTailL t ++ rest) := by
  cases t <;> simp only [serObjTailL, List.cons_append, List.singleton_append, dfree] <;>
    decide

theorem jsize_pos (j : Json) : 1 ≤ jsize j := by
  cases j <;> simp [jsize]

theorem tsize_pos (t : JsonArr) : 1 ≤ tsize t := by
  cases t <;> simp [tsize] <;> omega

theorem osize_pos (t : JsonObj) : 1 ≤ osize t := by
  cases t <;> simp [osize] <;> omega

theorem parse_ser_roundtrip (fuel : Nat) :
    (∀ j rest, jsize j ≤ fuel → dfree rest →
      parseValue fuel (serJsonL j ++ rest) = some (j, rest)) ∧
    (∀ t rest, tsize t ≤ fuel → dfree rest →
      parseArrTail fuel (serArrTailL t ++ rest) = some (t, rest)) ∧
    (∀ t rest, osize t ≤ fuel → dfree rest →
      parseObjTail fuel (serObjTailL t ++ rest) = some (t, rest)) := by
  induction fuel with
  | zero =>
      refine ⟨fun j rest hsz _ => absurd hsz ?_, fun t rest hsz _ => absurd hsz ?_,
        fun t rest hsz _ => absurd hsz ?_⟩
      · have := jsize_pos j; omega
      · have := tsize_pos t; omega
      · have := osize_pos t; omega
  | succ n ih =>
      obtain ⟨ihV, ihA, ihO⟩ := ih
      refine ⟨?_, ?_, ?_⟩
      · intro j rest hsz hdf
        cases j with
        | null =>
            simp only [serJsonL, List.cons_append, List.nil_append]
            rw [parseValue.eq_def]
            simp
        | str s =>
            simp only [serJsonL, List.cons_append, List.append_assoc,
              List.singleton_append]
            rw [parseValue.eq_def]
            simp [parseStrChars_escape]
        | num m =>
            obtain ⟨c, cs, hnc, hcd⟩ := natToChars_head m
            simp only [serJsonL]
            rw [hnc]
            simp only [List.cons_append]
            rw [parseValue.eq_def]
            have hq : ¬ c = '"' := fun h => by rw [h] at hcd; exact absurd hcd (by decide)
            have hn2 : ¬ c = 'n' := fun h => by rw [h] at hcd; exact absurd hcd (by decide)
            have hb : ¬ c = '[' := fun h => by rw [h] at hcd; exact absurd hcd (by decide)
            have ho : ¬ c = '\x7b' := fun h => by
              rw [h] at hcd; exact absurd hcd (by decide)
            simp only [if_neg hq, if_neg hn2, if_neg hb, if_neg ho, hcd, if_true]
            rw [show c :: (cs ++ rest) = (c :: cs) ++ rest from rfl, ← hnc,
              parseNat_natToChars m rest hdf]
            rfl
        | arr es =>
            cases es with
            | anil =>
                simp only [serJsonL, List.cons_append, List.nil_append]
                rw [parseValue.eq_def]
                simp [headIs]
            | acons h t =>
                have hsz' : jsize h ≤ n ∧ tsize t ≤ n := by
                  simp only [jsize, tsize] at hsz; omega
                have hhead := headIs_ser_false ']' h (serArrTailL t ++ rest)
                  (by decide) (by decide) (by decide) (by decide) (by decide)
                have h1 := ihV h (serArrTailL t ++ rest) hsz'.1 (dfree_serArrTailL t rest)
                have h2 := ihA t rest hsz'.2 hdf
                simp only [serJsonL, List.cons_append, List.append_assoc]
                rw [parseValue.eq_def]
                simp [hhead, h1, h2]
        | obj fs =>
            cases fs with
            | onil =>
                simp only [serJsonL, List.cons_append, List.nil_append]
                rw [parseValue.eq_def]
                simp [headIs]
            | ocons k v t =>
                have hsz' : jsize v ≤ n ∧ osize t ≤ n := by
                  simp only [jsize, osize] at hsz; omega
                have h1 := ihV v (serObjTailL t ++ rest) hsz'.1 (dfree_serObjTailL t rest)
                have h2 := ihO t rest hsz'.2 hdf
                simp only [serJsonL, List.cons_append, List.append_assoc,
                  List.singleton_append]
                rw [parseValue.eq_def]
                simp [headIs, parseStrChars_escape, h1, h2]
      · intro t rest hsz hdf
        cases t with
        | anil =>
            simp only [serArrTailL, List.cons_append, List.nil_append,
              List.singleton_append]
            rw [parseArrTail.eq_def]
            simp
        | acons h t' =>
            have hsz' : jsize h ≤ n ∧ tsize t' ≤ n := by
              simp only [tsize] at hsz; omega
            have h1 := ihV h (serArrTailL t' ++ rest) hsz'.1 (dfree_serArrTailL t' rest)
            have h2 := ihA t' rest hsz'.2 hdf
            simp only [serArrTailL, List.cons_append, List.append_assoc]
            rw [parseArrTail.eq_def]
            simp [h1, h2]
      · intro t rest hsz hdf
        cases t with
        | onil =>
            simp only [serObjTailL, List.cons_append, List.nil_append,
              List.singleton_append]
            rw [parseObjTail.eq_def]
            simp
        | ocons k v t' =>
            have hsz' : jsize v ≤ n ∧ osize t' ≤ n := by
              simp only [osize] at hsz; omega
            have h1 := ihV v (serObjTailL t' ++ rest) hsz'.1 (dfree_serObjTailL t' rest)
            have h2 := ihO t' rest hsz'.2 hdf
            simp only [serObjTailL, List.cons_append, List.append_assoc,
              List.singleton_append]
            rw [parseObjTail.eq_def]
            simp [headIs, parseStrChars_escape, h1, h2]

theorem serJsonL_length_pos (j : Json) : 1 ≤ (serJsonL j).length := by
  obtain ⟨c, cs, h, -⟩ := serJsonL_head j
  simp [h]

theorem serArrTailL_length_pos (t : JsonArr) : 1 ≤ (serArrTailL t).length := by
  cases t <;> simp [serArrTailL]

theorem serObjTailL_length_pos (t : JsonObj) : 1 ≤ (serObjTailL t).length := by
  cases t <;> simp [serObjTailL]

mutual
theorem jsize_le_len : ∀ j : Json, jsize j ≤ (serJsonL j).length + 1
  | .null => by simp [jsize, serJsonL]
  | .str s => by simp [jsize, serJsonL]
  | .num m => by
      simp only [jsize, serJsonL]
      have h := List.length_pos.mpr (natToChars_ne_nil m)
      omega
  | .arr .anil => by simp [jsize, tsize, serJsonL]
  | .arr (.acons h t) => by
      have h1 := jsize_le_len h
      have h2 := tsize_le_len t
      have p1 := serJsonL_length_pos h
      have p2 := serArrTailL_length_pos t
      simp only [jsize, tsize, serJsonL, List.length_cons, List.length_append]
      omega
  | .obj .onil => by simp [jsize, osize, serJsonL]
  | .obj (.ocons k v t) => by
      have h1 := jsize_le_len v
      have h2 := osize_le_len t
      have p1 := serJsonL_length_pos v
      have p2 := serObjTailL_length_pos t
      simp only [jsize, osize, serJsonL, List.length_cons, List.length_append]
      omega
theorem tsize_le_len : ∀ t : JsonArr, tsize t ≤ (serArrTailL t).length + 1
  | .anil => by simp [tsize, serArrTailL]
  | .acons h t => by
      have h1 := jsize_le_len h
      have h2 := tsize_le_len t
      have p1 := serJsonL_length_pos h
      have p2 := serArrTailL_length_pos t
      simp only [tsize, serArrTailL, List.length_cons, List.length_append]
      omega
theorem osize_le_len : ∀ t : JsonObj, osize t ≤ (serObjTailL t).length + 1
  | .onil => by simp [osize, serObjTailL]
  | .ocons k v t => by
      have h1 := jsize_le_len v
      have h2 := osize_le_len t
      have p1 := serJsonL_length_pos v
      have p2 := serObjTailL_length_pos t
      simp only [osize, serObjTailL, List.length_cons, List.length_append]
      omega
end

theorem parseJsonString_serJson (j : Json) : parseJsonString (serJson j) = some j := by
  have hfuel : jsize j ≤ (serJsonL j).length + 1 := jsize_le_len j
  have h := (parse_ser_roundtrip ((serJsonL j).length + 1)).1 j [] hfuel trivial
  rw [List.append_nil] at h
  unfold parseJsonString serJson
  have hd : (String.mk (serJsonL j)).data = serJsonL j := rfl
  rw [hd, h]

theorem versionsOf_packagesToObj : ∀ pkgs : List (String × PackageRecord),
    versionsOf (packagesToObj pkgs) = some (pkgs.map fun p => (p.1, p.2.version))
  | [] => rfl
  | (k, r) :: rest => by
      simp only [packagesToObj, versionsOf, recordToJson, objLookup,
        versionsOf_packagesToObj rest]
      simp

theorem packagesVersionsOf_dataToJson (d : SnapshotData) :
    packagesVersionsOf (dataToJson d) = some (d.packages.map fun p => (p.1, p.2.version)) := by
  simp only [dataToJson, packagesVersionsOf, objLookup]
  simp only [if_pos, if_true, if_false, reduceCtorEq]
  simp [versionsOf_packagesToObj d.packages]

/-- C9: writing a snapshot in structured format stores exactly
`json.dump` of the data dict (readable back through the matching
compression layer), parsing that text reproduces the data dict value
exactly, and its `packages` field carries the same names with the same
versions as the in-memory snapshot. -/
theorem structured_output_roundtrip (fs : FS) (fname : String) (data : SnapshotData)
    (compressed : Bool) (hne : data.packages ≠ []) :
    readFileText (writeDataToFile fs fname data true compressed false none).1 fname
        compressed = some (serJson (dataToJson data)) ∧
    parseJsonString (serJson (dataToJson data)) = some (dataToJson data) ∧
    packagesVersionsOf (dataToJson data) =
      some (data.packages.map fun p => (p.1, p.2.version)) := by
  refine ⟨?_, parseJsonString_serJson _, packagesVersionsOf_dataToJson data⟩
  simp only [writeDataToFile, readFileText]
  rw [fsLookup_dictUpd_self]
  simp [renderContent]

theorem structured_output_roundtrip_witness :
    snapshotSmall.packages ≠ [] ∧
    (readFileText (writeDataToFile [] "f" snapshotSmall true false false none).1 "f"
        false = some (serJson (dataToJson snapshotSmall)) ∧
    parseJsonString (serJson (dataToJson snapshotSmall)) = some (dataToJson snapshotSmall) ∧
    packagesVersionsOf (dataToJson snapshotSmall) =
      some (snapshotSmall.packages.map fun p => (p.1, p.2.version))) :=
  ⟨List.cons_ne_nil _ _,
    structured_output_roundtrip [] "f" snapshotSmall false (List.cons_ne_nil _ _)⟩

end PackageTracker
